import Mathlib

/-!
Shallow embedding of the WordPress Interactivity API frontend demo stores
(kanban board command/history engine, live-search store, todo-list store)
together with theorems checking the specification claims against it.

All definitions are translated from the TypeScript sources under `src/`:
`src/complex/kanban/kanban.ts`, `src/complex/live-search/live-search.ts`,
`src/intermediate/todo-list/todo-list.ts`. JavaScript arrays become `List`,
`null`/`undefined`-able values become `Option`, and the in-place mutations
of the context object become pure state-passing functions.
-/

namespace WPDemo

/-! ### Generic list helpers modelling JavaScript array operations -/

/-- Modify the element at index `n` in place (no-op when out of range).
Models mutating `arr[n]` through a reference obtained from a find. -/
def modifyIdx : List α → Nat → (α → α) → List α
  | [], _, _ => []
  | a :: l, 0, f => f a :: l
  | a :: l, n + 1, f => a :: modifyIdx l n f

/-- `arr.splice(i, 1)`: remove the element at index `i`; no-op when `i` is
out of range (JavaScript removes nothing in that case). -/
def spliceOut (l : List α) (i : Nat) : List α :=
  l.take i ++ l.drop (i + 1)

/-- `arr.splice(i, 0, a)`: insert `a` at index `i`, clamping `i` to the
length of the array (JavaScript clamps instead of failing). -/
def spliceInsert (l : List α) (i : Nat) (a : α) : List α :=
  l.take i ++ a :: l.drop i

/-- Model of JavaScript `String.prototype.trim` whitespace test, restricted
to the whitespace characters that can occur in the demo data. -/
def jsWhitespace (c : Char) : Bool :=
  c = ' ' || c = '\t' || c = '\n' || c = '\r'

/-- Model of JavaScript `String.prototype.trim`. -/
def jsTrim (s : String) : String :=
  String.mk (((s.toList.dropWhile jsWhitespace).reverse.dropWhile jsWhitespace).reverse)

/-- Model of JavaScript `str.slice(0, n)`. -/
def jsSlice (s : String) (n : Nat) : String :=
  String.mk (s.toList.take n)

/-- Model of the JavaScript idiom `s || undefined` on strings: the empty
string is falsy and becomes `undefined`. -/
def orUndefined (s : String) : Option String :=
  if s = "" then none else some s

/-! ### Kanban data model (`src/complex/kanban/kanban.ts`) -/

namespace Kanban

/-- `enum Priority` -/
inductive Priority where
  | high
  | medium
  | low
deriving DecidableEq, Repr

/-- `type PriorityFilter = 'all' | Priority` -/
inductive PriorityFilter where
  | all
  | only (p : Priority)
deriving DecidableEq, Repr

/-- `dropPosition: 'before' | 'after'` -/
inductive DropPosition where
  | before
  | after
deriving DecidableEq, Repr

/-- `interface KanbanCard` -/
structure KanbanCard where
  id : String
  title : String
  description : Option String
  priority : Priority
  assignee : Option String
  createdAt : Nat
deriving DecidableEq, Repr

/-- `interface KanbanColumn` -/
structure KanbanColumn where
  id : String
  title : String
  cards : List KanbanCard
  color : String
deriving DecidableEq, Repr

/-- The `oldValues`/`newValues` record of an `EditCommand`. -/
structure EditValues where
  title : String
  priority : Priority
  description : String
  assignee : String
deriving DecidableEq, Repr

/-- `type Command = MoveCommand | CreateCommand | EditCommand | DeleteCommand`,
with the `BaseCommand` fields (`timestamp`, `description`, `seqId`) inlined. -/
inductive Command where
  | move (cardId cardTitle : String) (fromColumnId : String) (fromIndex : Nat)
      (toColumnId : String) (toIndex : Nat)
      (timestamp : Nat) (description : String) (seqId : Nat)
  | create (card : KanbanCard) (columnId : String)
      (timestamp : Nat) (description : String) (seqId : Nat)
  | edit (cardId : String) (oldValues newValues : EditValues)
      (timestamp : Nat) (description : String) (seqId : Nat)
  | delete (card : KanbanCard) (columnId : String) (index : Nat)
      (timestamp : Nat) (description : String) (seqId : Nat)
deriving DecidableEq, Repr

/-- `command.seqId` -/
def Command.seqId : Command → Nat
  | .move _ _ _ _ _ _ _ _ s => s
  | .create _ _ _ _ s => s
  | .edit _ _ _ _ _ s => s
  | .delete _ _ _ _ _ s => s

/-- `column.cards.findIndex(c => c.id === cardId)` together with the found
card itself (the JavaScript code reads the card right after the find). -/
def findCardInList : List KanbanCard → String → Option (Nat × KanbanCard)
  | [], _ => none
  | c :: cs, cid =>
    if c.id = cid then some (0, c)
    else (findCardInList cs cid).map (fun p => (p.1 + 1, p.2))

/-- `findCardLocation`: first column containing a card with the given id,
returning the column index, the card index inside it, and the card. -/
def findCardLocation : List KanbanColumn → String → Option (Nat × Nat × KanbanCard)
  | [], _ => none
  | col :: rest, cid =>
    match findCardInList col.cards cid with
    | some (i, card) => some (0, i, card)
    | none => (findCardLocation rest cid).map (fun p => (p.1 + 1, p.2.1, p.2.2))

/-- `findColumn`: index of the first column with the given id
(`columns.find(c => c.id === id)` returns a reference to that column). -/
def findColumnIdx : List KanbanColumn → String → Option Nat
  | [], _ => none
  | col :: rest, columnId =>
    if col.id = columnId then some 0
    else (findColumnIdx rest columnId).map (· + 1)

/-- Applying `newValues`/`oldValues` of an edit command to a card, including
the `value || undefined` coercions for `description` and `assignee`. -/
def applyEdit (vals : EditValues) (card : KanbanCard) : KanbanCard :=
  { card with
      title := vals.title
      priority := vals.priority
      description := orUndefined vals.description
      assignee := orUndefined vals.assignee }

/-- `executeCommand`: apply a command forward effect to the columns. -/
def executeCommand (columns : List KanbanColumn) (cmd : Command) : List KanbanColumn :=
  match cmd with
  | .move cardId _ _ _ toColumnId toIndex _ _ _ =>
    match findCardLocation columns cardId with
    | none => columns
    | some (ci, i, card) =>
      let columns1 := modifyIdx columns ci (fun col => { col with cards := spliceOut col.cards i })
      match findColumnIdx columns1 toColumnId with
      | none => columns1
      | some ti =>
        modifyIdx columns1 ti (fun col => { col with cards := spliceInsert col.cards toIndex card })
  | .create card columnId _ _ _ =>
    match findColumnIdx columns columnId with
    | none => columns
    | some ci => modifyIdx columns ci (fun col => { col with cards := col.cards ++ [card] })
  | .edit cardId _ newValues _ _ _ =>
    match findCardLocation columns cardId with
    | none => columns
    | some (ci, i, _) =>
      modifyIdx columns ci (fun col => { col with cards := modifyIdx col.cards i (applyEdit newValues) })
  | .delete card columnId _ _ _ _ =>
    match findColumnIdx columns columnId with
    | none => columns
    | some ci =>
      modifyIdx columns ci (fun col =>
        match findCardInList col.cards card.id with
        | none => col
        | some (i, _) => { col with cards := spliceOut col.cards i })

/-- `reverseCommand`: apply the inverse effect of a command. -/
def reverseCommand (columns : List KanbanColumn) (cmd : Command) : List KanbanColumn :=
  match cmd with
  | .move cardId _ fromColumnId fromIndex _ _ _ _ _ =>
    match findCardLocation columns cardId with
    | none => columns
    | some (ci, i, card) =>
      let columns1 := modifyIdx columns ci (fun col => { col with cards := spliceOut col.cards i })
      match findColumnIdx columns1 fromColumnId with
      | none => columns1
      | some si =>
        modifyIdx columns1 si (fun col => { col with cards := spliceInsert col.cards fromIndex card })
  | .create card columnId _ _ _ =>
    match findColumnIdx columns columnId with
    | none => columns
    | some ci =>
      modifyIdx columns ci (fun col =>
        match findCardInList col.cards card.id with
        | none => col
        | some (i, _) => { col with cards := spliceOut col.cards i })
  | .edit cardId oldValues _ _ _ _ =>
    match findCardLocation columns cardId with
    | none => columns
    | some (ci, i, _) =>
      modifyIdx columns ci (fun col => { col with cards := modifyIdx col.cards i (applyEdit oldValues) })
  | .delete card columnId index _ _ _ =>
    match findColumnIdx columns columnId with
    | none => columns
    | some ci =>
      modifyIdx columns ci (fun col => { col with cards := spliceInsert col.cards index card })

/-- `MAX_HISTORY_SIZE` -/
def MAX_HISTORY_SIZE : Nat := 50

/-- `MAX_TITLE_LENGTH` -/
def MAX_TITLE_LENGTH : Nat := 200

/-- `interface KanbanContext` (the `item` field provided by `wp-each` is a
reference into one of the lists and is passed explicitly to the actions
that read it). `historyIndex` is an `Int` because `-1` means
"before all history entries". -/
structure KanbanContext where
  columns : List KanbanColumn
  draggedCardId : Option String
  sourceColumnId : Option String
  dropTargetColumnId : Option String
  dropTargetCardId : Option String
  dropPosition : DropPosition
  editingCardId : Option String
  editTitle : String
  editPriority : Priority
  editDescription : String
  editAssignee : String
  searchQuery : String
  filterPriority : PriorityFilter
  history : List Command
  historyIndex : Int
  newCardModalOpen : Bool
  newCardColumnId : Option String
  newCardTitle : String
  newCardPriority : Priority
  newCardDescription : String
  newCardAssignee : String
  revisionPanelOpen : Bool
  hoveredRevisionId : Option String
deriving DecidableEq, Repr

/-- `pushCommand`: truncate the redo branch, append, enforce the size cap
(`history.slice(-MAX_HISTORY_SIZE)` keeps the newest 50 entries). -/
def pushCommand (ctx : KanbanContext) (cmd : Command) : KanbanContext :=
  let truncated := ctx.history.take (ctx.historyIndex + 1).toNat
  let appended := truncated ++ [cmd]
  if MAX_HISTORY_SIZE < appended.length then
    let newHistory := appended.drop (appended.length - MAX_HISTORY_SIZE)
    { ctx with
        history := newHistory
        historyIndex := min ctx.historyIndex ((newHistory.length : Int) - 1) }
  else
    { ctx with history := appended, historyIndex := (appended.length : Int) - 1 }

/-- `performUndo`. In the `none` branch the JavaScript code would fault on
`history[historyIndex]` being `undefined`; that branch is unreachable
whenever `historyIndex ≤ history.length - 1` holds. -/
def performUndo (ctx : KanbanContext) : KanbanContext :=
  if 0 ≤ ctx.historyIndex then
    match ctx.history[ctx.historyIndex.toNat]? with
    | some cmd =>
      { ctx with
          columns := reverseCommand ctx.columns cmd
          historyIndex := ctx.historyIndex - 1 }
    | none => ctx
  else ctx

/-- `performRedo`. As in `performUndo`, the `none` branch is unreachable
whenever `-1 ≤ historyIndex` holds. -/
def performRedo (ctx : KanbanContext) : KanbanContext :=
  if ctx.historyIndex < (ctx.history.length : Int) - 1 then
    match ctx.history[(ctx.historyIndex + 1).toNat]? with
    | some cmd =>
      { ctx with
          historyIndex := ctx.historyIndex + 1
          columns := executeCommand ctx.columns cmd }
    | none => { ctx with historyIndex := ctx.historyIndex + 1 }
  else ctx

/-- `history.findIndex(c => c.seqId === command.seqId)` -/
def findCmdIdx : List Command → Nat → Option Nat
  | [], _ => none
  | c :: rest, sid =>
    if c.seqId = sid then some 0
    else (findCmdIdx rest sid).map (· + 1)

/-- The ascending loop of `jumpToRevision`:
`for (let i = start; i <= stop; i++) executeCommand(columns, history[i])`.
Out-of-range indices (unreachable under the history invariant) are skipped. -/
def execForward (history : List Command) (columns : List KanbanColumn) (i stop : Nat) :
    List KanbanColumn :=
  if _h : i ≤ stop then
    match history[i]? with
    | some cmd => execForward history (executeCommand columns cmd) (i + 1) stop
    | none => execForward history columns (i + 1) stop
  else columns
termination_by stop + 1 - i

/-- The descending loop of `jumpToRevision`:
`for (let i = start; i > stop; i--) reverseCommand(columns, history[i])`. -/
def execBackward (history : List Command) (columns : List KanbanColumn) (i stop : Nat) :
    List KanbanColumn :=
  if _h : stop < i then
    match history[i]? with
    | some cmd => execBackward history (reverseCommand columns cmd) (i - 1) stop
    | none => execBackward history columns (i - 1) stop
  else columns
termination_by i

/-- `jumpToRevision` action; the command clicked on is the `wp-each` item
and is passed explicitly. -/
def jumpToRevision (ctx : KanbanContext) (cmd : Command) : KanbanContext :=
  match findCmdIdx ctx.history cmd.seqId with
  | none => ctx
  | some targetIndex =>
    if (targetIndex : Int) > ctx.historyIndex then
      { ctx with
          columns := execForward ctx.history ctx.columns (ctx.historyIndex + 1).toNat targetIndex
          historyIndex := (targetIndex : Int) }
    else if (targetIndex : Int) < ctx.historyIndex then
      { ctx with
          columns := execBackward ctx.history ctx.columns ctx.historyIndex.toNat targetIndex
          historyIndex := (targetIndex : Int) }
    else { ctx with historyIndex := (targetIndex : Int) }

/-- The `while (historyIndex >= 0)` loop of `resetToInitial`, phrased on the
number of remaining iterations: step `n + 1` reverses `history[n]`. -/
def resetSteps (history : List Command) (columns : List KanbanColumn) : Nat → List KanbanColumn
  | 0 => columns
  | n + 1 =>
    match history[n]? with
    | some cmd => resetSteps history (reverseCommand columns cmd) n
    | none => resetSteps history columns n

/-- `resetToInitial` action. When `historyIndex < 0` the loop body never
runs and the index keeps its value. -/
def resetToInitial (ctx : KanbanContext) : KanbanContext :=
  { ctx with
      columns := resetSteps ctx.history ctx.columns (ctx.historyIndex + 1).toNat
      historyIndex := if ctx.historyIndex < 0 then ctx.historyIndex else -1 }

/-- `resetDragState` -/
def resetDragState (ctx : KanbanContext) : KanbanContext :=
  { ctx with
      draggedCardId := none
      sourceColumnId := none
      dropTargetColumnId := none
      dropTargetCardId := none }

/-- `handleDragEnd` action -/
def handleDragEnd (ctx : KanbanContext) : KanbanContext :=
  resetDragState ctx

/-- `sanitizeTitle` -/
def sanitizeTitle (title : String) : String :=
  jsSlice (jsTrim title) MAX_TITLE_LENGTH

/-- `getEditDescription` -/
def getEditDescription (oldValues newValues : EditValues) : String :=
  let changes :=
    (if oldValues.title ≠ newValues.title then ["title"] else []) ++
    (if oldValues.priority ≠ newValues.priority then ["priority"] else []) ++
    (if oldValues.description ≠ newValues.description then ["description"] else []) ++
    (if oldValues.assignee ≠ newValues.assignee then ["assignee"] else [])
  if changes = [] then "\"" ++ newValues.title ++ "\" ✎"
  else "\"" ++ newValues.title ++ "\" ✎ " ++ String.intercalate ", " changes

/-- `resetNewCardModal` -/
def resetNewCardModal (ctx : KanbanContext) : KanbanContext :=
  { ctx with
      newCardModalOpen := false
      newCardColumnId := none
      newCardTitle := ""
      newCardDescription := ""
      newCardAssignee := "" }

/-- `performEdit`. `Date.now()` and `++commandSeqId` are inputs of the model. -/
def performEdit (ctx : KanbanContext) (timestamp seqId : Nat) : KanbanContext :=
  let sanitized := sanitizeTitle ctx.editTitle
  match ctx.editingCardId with
  | none => { ctx with editingCardId := none }
  | some cardId =>
    if sanitized = "" then { ctx with editingCardId := none }
    else
      match findCardLocation ctx.columns cardId with
      | none => { ctx with editingCardId := none }
      | some (ci, i, card) =>
        let oldValues : EditValues :=
          ⟨card.title, card.priority, card.description.getD "", card.assignee.getD ""⟩
        let newValues : EditValues :=
          ⟨sanitized, ctx.editPriority, jsTrim ctx.editDescription, jsTrim ctx.editAssignee⟩
        let cmd : Command :=
          .edit cardId oldValues newValues timestamp (getEditDescription oldValues newValues) seqId
        let columns1 :=
          modifyIdx ctx.columns ci (fun col => { col with cards := modifyIdx col.cards i (applyEdit newValues) })
        let ctx1 := pushCommand { ctx with columns := columns1 } cmd
        { ctx1 with editingCardId := none }

/-- `createCard` action. The generated id, `Date.now()` and `++commandSeqId`
are inputs of the model. -/
def createCard (ctx : KanbanContext) (newId : String) (now seqId : Nat) : KanbanContext :=
  let sanitized := sanitizeTitle ctx.newCardTitle
  if sanitized = "" then ctx
  else
    match ctx.newCardColumnId with
    | none => ctx
    | some columnId =>
      match findColumnIdx ctx.columns columnId with
      | none => resetNewCardModal ctx
      | some ci =>
        let newCard : KanbanCard :=
          { id := newId
            title := sanitized
            description := orUndefined (jsTrim ctx.newCardDescription)
            priority := ctx.newCardPriority
            assignee := orUndefined (jsTrim ctx.newCardAssignee)
            createdAt := now }
        let cmd : Command := .create newCard columnId now ("+ \"" ++ newCard.title ++ "\"") seqId
        let ctx1 :=
          { ctx with columns := modifyIdx ctx.columns ci (fun col => { col with cards := col.cards ++ [newCard] }) }
        let ctx2 := pushCommand ctx1 cmd
        { ctx2 with newCardModalOpen := false, newCardTitle := "" }

/-- `handleDropOnColumn` action; the column dropped on is the `wp-each` item
(`targetColumnId`), and `Date.now()` / `++commandSeqId` are inputs. -/
def handleDropOnColumn (ctx : KanbanContext) (targetColumnId? : Option String)
    (timestamp seqId : Nat) : KanbanContext :=
  match ctx.draggedCardId, ctx.sourceColumnId, targetColumnId? with
  | some draggedCardId, some sourceColumnId, some targetColumnId =>
    match findColumnIdx ctx.columns sourceColumnId, findColumnIdx ctx.columns targetColumnId with
    | some si, some ti =>
      match ctx.columns[si]?, ctx.columns[ti]? with
      | some sourceCol, some targetCol =>
        match findCardInList sourceCol.cards draggedCardId with
        | none => ctx
        | some (cardIndex, card) =>
          let insertIndex :=
            match ctx.dropTargetCardId with
            | none => targetCol.cards.length
            | some tid =>
              match findCardInList targetCol.cards tid with
              | none => targetCol.cards.length
              | some (targetIndex, _) =>
                match ctx.dropPosition with
                | .before => targetIndex
                | .after => targetIndex + 1
          if si = ti ∧ (if cardIndex < insertIndex then insertIndex - 1 else insertIndex) = cardIndex then
            resetDragState ctx
          else
            let actualInsertIndex :=
              if si = ti ∧ cardIndex < insertIndex then insertIndex - 1 else insertIndex
            let cmd : Command :=
              .move draggedCardId card.title sourceColumnId cardIndex targetColumnId insertIndex
                timestamp (sourceCol.title ++ " → " ++ targetCol.title) seqId
            let columns1 :=
              modifyIdx ctx.columns si (fun col => { col with cards := spliceOut col.cards cardIndex })
            let columns2 :=
              modifyIdx columns1 ti (fun col => { col with cards := spliceInsert col.cards actualInsertIndex card })
            resetDragState (pushCommand { ctx with columns := columns2 } cmd)
      | _, _ => ctx
    | _, _ => ctx
  | _, _, _ => ctx

end Kanban

/-! ### Live search store (`src/complex/live-search/live-search.ts`) -/

namespace LiveSearch

/-- `SearchCategory` from the shared types module. -/
inductive SearchCategory where
  | frontend
  | backend
  | api
  | database
  | devops
  | language
deriving DecidableEq, Repr

/-- `interface SearchResult` -/
structure SearchResult where
  id : Nat
  title : String
  description : String
  category : SearchCategory
deriving DecidableEq, Repr

/-- `interface LiveSearchContext`. The `_pendingSearchId` field is optional
in the source and initialised to `0` by the `init` callback; it is modelled
as a `Nat` with `context._pendingSearchId ?? 0` built in. -/
structure LiveSearchContext where
  query : String
  results : List SearchResult
  isLoading : Bool
  selectedIndex : Int
  isOpen : Bool
  recentSearches : List String
  pendingSearchId : Nat
deriving DecidableEq, Repr

/-- The synchronous prefix of the `updateQuery` generator action, up to
`yield splitTask()`: everything executed before the first suspension.
Returns the updated context together with the invocation `searchId`
captured in the local variable (`none` when the action returned early
because the query was blank and no asynchronous part runs). -/
def updateQueryStart (ctx : LiveSearchContext) (newQuery : String) :
    LiveSearchContext × Option Nat :=
  let ctx1 := { ctx with query := newQuery, selectedIndex := -1 }
  if jsTrim newQuery = "" then
    ({ ctx1 with results := [], isOpen := false }, none)
  else
    let searchId := ctx1.pendingSearchId + 1
    ({ ctx1 with isLoading := true, isOpen := true, pendingSearchId := searchId }, some searchId)

/-- The resumption of `updateQuery` after `simulateSearch` settles: the
`try`/`catch`/`finally` tail, parameterised by the captured `searchId` and
by the outcome of the awaited promise. -/
def updateQueryResolve (ctx : LiveSearchContext) (searchId : Nat)
    (outcome : Except Unit (List SearchResult)) : LiveSearchContext :=
  let afterTry :=
    match outcome with
    | .ok results =>
      if ctx.pendingSearchId = searchId then { ctx with results := results } else ctx
    | .error _ =>
      if ctx.pendingSearchId = searchId then { ctx with results := [], isLoading := false } else ctx
  if afterTry.pendingSearchId = searchId then { afterTry with isLoading := false } else afterTry

end LiveSearch

/-! ### Todo list store (`src/intermediate/todo-list/todo-list.ts`) -/

namespace TodoList

/-- `interface TodoItem` -/
structure TodoItem where
  id : Nat
  text : String
  completed : Bool
deriving DecidableEq, Repr

/-- `interface TodoContext` (minus the `wp-each` `item` reference, which is
passed to `toggleTodo` explicitly as the index of the item). -/
structure TodoContext where
  todos : List TodoItem
  newTodoText : String
  nextId : Nat
deriving DecidableEq, Repr

/-- `addTodoItem` helper (shared by `addTodo` and `addTodoOnEnter`). -/
def addTodoItem (ctx : TodoContext) : TodoContext :=
  let text := jsTrim ctx.newTodoText
  if text = "" then ctx
  else
    { ctx with
        todos := ctx.todos ++ [{ id := ctx.nextId, text := text, completed := false }]
        nextId := ctx.nextId + 1
        newTodoText := "" }

/-- `updateNewTodoText` action (the input event value is the argument). -/
def updateNewTodoText (ctx : TodoContext) (value : String) : TodoContext :=
  { ctx with newTodoText := value }

/-- `toggleTodo` action: flips `completed` on the `wp-each` item, given here
by its index in `todos`. -/
def toggleTodo (ctx : TodoContext) (idx : Nat) : TodoContext :=
  { ctx with todos := modifyIdx ctx.todos idx (fun t => { t with completed := !t.completed }) }

/-- `state.remainingItems` derived value. -/
def remainingItems (ctx : TodoContext) : Nat :=
  (ctx.todos.filter (fun t => !t.completed)).length

end TodoList

/-- The newest `n` entries of a list (`arr.slice(-n)` for a non-empty result). -/
def lastN (l : List α) (n : Nat) : List α :=
  l.drop (l.length - n)

namespace Kanban

/-- All card ids of a columns document, in document order. -/
def allCardIds (columns : List KanbanColumn) : List String :=
  (columns.map (fun col => col.cards.map (fun c => c.id))).flatten

/-- Consistency of a command with a columns document: the data recorded in
the command describes the document it is about to be executed on. Commands
built by the store actions from the current document satisfy this. -/
def Consistent (columns : List KanbanColumn) : Command → Prop
  | .move cardId _ fromColumnId fromIndex toColumnId _ _ _ _ =>
    (∃ ci card, findCardLocation columns cardId = some (ci, fromIndex, card) ∧
      findColumnIdx columns fromColumnId = some ci) ∧
    (∃ ti, findColumnIdx columns toColumnId = some ti)
  | .create card columnId _ _ _ =>
    (∃ ci, findColumnIdx columns columnId = some ci) ∧ card.id ∉ allCardIds columns
  | .edit cardId oldValues _ _ _ _ =>
    ∃ ci i card, findCardLocation columns cardId = some (ci, i, card) ∧
      card.title = oldValues.title ∧ card.priority = oldValues.priority ∧
      card.description = orUndefined oldValues.description ∧
      card.assignee = orUndefined oldValues.assignee
  | .delete card columnId index _ _ _ =>
    ∃ ci col, findColumnIdx columns columnId = some ci ∧ columns[ci]? = some col ∧
      findCardInList col.cards card.id = some (index, card)

/-- The history invariant maintained by every history operation. -/
def HistoryInv (ctx : KanbanContext) : Prop :=
  -1 ≤ ctx.historyIndex ∧ ctx.historyIndex ≤ (ctx.history.length : Int) - 1 ∧
    ctx.history.length ≤ MAX_HISTORY_SIZE

instance (ctx : KanbanContext) : Decidable (HistoryInv ctx) := by
  unfold HistoryInv
  infer_instance

/-! Concrete sample data used by witness and counterexample instances. -/

/-- A sample card with the given id. -/
def sampleCard (i : String) : KanbanCard :=
  { id := i, title := i, description := none, priority := .medium, assignee := none, createdAt := 0 }

/-- A sample column holding cards `a`, `b`, `c`. -/
def sampleColumn : KanbanColumn :=
  { id := "c1", title := "To Do", cards := [sampleCard "a", sampleCard "b", sampleCard "c"], color := "blue" }

/-- A plain context over `sampleColumn` with empty drag and history state. -/
def baseCtx : KanbanContext :=
  { columns := [sampleColumn]
    draggedCardId := none
    sourceColumnId := none
    dropTargetColumnId := none
    dropTargetCardId := none
    dropPosition := .after
    editingCardId := none
    editTitle := ""
    editPriority := .medium
    editDescription := ""
    editAssignee := ""
    searchQuery := ""
    filterPriority := .all
    history := []
    historyIndex := -1
    newCardModalOpen := false
    newCardColumnId := none
    newCardTitle := ""
    newCardPriority := .medium
    newCardDescription := ""
    newCardAssignee := ""
    revisionPanelOpen := false
    hoveredRevisionId := none }

/-- Context in which card `a` is being dragged inside column `c1` with the
drop indicator before card `c` (an in-column reorder). -/
def dropCtx : KanbanContext :=
  { baseCtx with
      draggedCardId := some "a"
      sourceColumnId := some "c1"
      dropTargetColumnId := some "c1"
      dropTargetCardId := some "c"
      dropPosition := .before }

/-- Context holding a drag session whose recorded source column id does not
exist in the (empty) document. -/
def strayDragCtx : KanbanContext :=
  { baseCtx with columns := [], draggedCardId := some "x", sourceColumnId := some "s" }

/-- Fifty-one distinct commands for exercising the history size cap. -/
def manyCmds : List Command :=
  (List.range 51).map (fun n => Command.create (sampleCard "n") "c1" 0 "" n)

/-- A move of card `a` to the end of column `c1`, consistent with `baseCtx`. -/
def sampleMove : Command :=
  Command.move "a" "a" "c1" 0 "c1" 2 100 "" 1

/-- Context whose history holds one command, with the index on it. -/
def oneCmdCtx : KanbanContext :=
  { baseCtx with history := [sampleMove], historyIndex := 0 }

/-- A create command with sequence id 1. -/
def cmdD : Command :=
  Command.create (sampleCard "d") "c1" 0 "" 1

/-- A create command with sequence id 2. -/
def cmdE : Command :=
  Command.create (sampleCard "e") "c1" 0 "" 2

/-- Context with two commands in the history and the index before both. -/
def twoCmdCtx : KanbanContext :=
  { baseCtx with history := [cmdD, cmdE], historyIndex := -1 }

/-- Context in the middle of editing card `a` with a blank edit title. -/
def blankEditCtx : KanbanContext :=
  { baseCtx with editingCardId := some "a", editTitle := "   " }

/-- Context with the new-card modal open on a column that no longer exists. -/
def staleModalCtx : KanbanContext :=
  { baseCtx with newCardModalOpen := true, newCardColumnId := some "nope", newCardTitle := "T" }

/-- An edit of card `b` recording its current values as `oldValues`. -/
def editB : Command :=
  Command.edit "b" ⟨"b", .medium, "", ""⟩ ⟨"B", .high, "x", ""⟩ 0 "" 3

/-- A delete of card `c` recording its column and index. -/
def deleteC : Command :=
  Command.delete (sampleCard "c") "c1" 2 0 "" 4

/-- The document of the C1 counterexample: one column holding one card. -/
def miniColumns : List KanbanColumn :=
  [{ id := "c1", title := "C", cards := [sampleCard "a"], color := "blue" }]

/-- An edit command whose recorded `oldValues` do not match the document:
the card `a` has title `a`, but the command records old title `z`. -/
def mismatchedEdit : Command :=
  Command.edit "a" ⟨"z", .medium, "", ""⟩ ⟨"b", .medium, "", ""⟩ 0 "" 1

end Kanban

namespace LiveSearch

/-- A fresh live-search context as set up by the `init` callback. -/
def initialSearchCtx : LiveSearchContext :=
  { query := ""
    results := []
    isLoading := false
    selectedIndex := -1
    isOpen := false
    recentSearches := []
    pendingSearchId := 0 }

/-- A sample search result. -/
def sampleResult : SearchResult :=
  { id := 1, title := "React Hooks", description := "useState, useEffect, useContext",
    category := .frontend }

end LiveSearch

namespace TodoList

/-- The empty todo context the scenario starts from. -/
def emptyTodoCtx : TodoContext :=
  { todos := [], newTodoText := "", nextId := 1 }

end TodoList

/-! ### Lemmas about the generic list helpers -/

theorem modifyIdx_length (l : List α) (n : Nat) (f : α → α) :
    (modifyIdx l n f).length = l.length := by
  induction l generalizing n with
  | nil => rfl
  | cons a t ih =>
    cases n with
    | zero => rfl
    | succ m => simp [modifyIdx, ih]

theorem modifyIdx_getElem? (l : List α) (n : Nat) (f : α → α) (m : Nat) :
    (modifyIdx l n f)[m]? = if m = n then l[n]?.map f else l[m]? := by
  induction l generalizing n m with
  | nil => simp [modifyIdx]
  | cons a t ih =>
    cases n with
    | zero =>
      cases m with
      | zero => simp [modifyIdx]
      | succ k => simp [modifyIdx]
    | succ nm =>
      cases m with
      | zero => simp [modifyIdx]
      | succ k => simpa [modifyIdx, Nat.succ_inj] using ih nm k

theorem modifyIdx_modifyIdx (l : List α) (n : Nat) (f g : α → α) :
    modifyIdx (modifyIdx l n f) n g = modifyIdx l n (fun a => g (f a)) := by
  induction l generalizing n with
  | nil => rfl
  | cons a t ih =>
    cases n with
    | zero => rfl
    | succ m => simp [modifyIdx, ih]

theorem modifyIdx_eq_self (l : List α) (n : Nat) (f : α → α)
    (h : ∀ a, l[n]? = some a → f a = a) : modifyIdx l n f = l := by
  induction l generalizing n with
  | nil => rfl
  | cons a t ih =>
    cases n with
    | zero => simp [modifyIdx, h a (by simp)]
    | succ m =>
      simp only [modifyIdx, List.cons.injEq, true_and]
      exact ih m (fun b hb => h b (by simpa using hb))

theorem spliceInsert_length (l : List α) (i : Nat) (a : α) :
    (spliceInsert l i a).length = l.length + 1 := by
  simp [spliceInsert]
  omega

theorem spliceOut_length (l : List α) (i : Nat) (h : i < l.length) :
    (spliceOut l i).length = l.length - 1 := by
  simp [spliceOut]
  omega

theorem spliceInsert_getElem?_lt (l : List α) (i : Nat) (a : α) (m : Nat)
    (h : m < min i l.length) : (spliceInsert l i a)[m]? = l[m]? := by
  have hmi : m < i := by omega
  have hm : m < (l.take i).length := by simp; omega
  rw [spliceInsert, List.getElem?_append, if_pos hm, List.getElem?_take, if_pos hmi]

theorem spliceInsert_getElem?_self (l : List α) (i : Nat) (a : α) :
    (spliceInsert l i a)[min i l.length]? = some a := by
  have hlen : (l.take i).length = min i l.length := by simp
  rw [spliceInsert, List.getElem?_append_right (by omega), hlen]
  simp

theorem spliceOut_spliceInsert (l : List α) (i : Nat) (a : α) :
    spliceOut (spliceInsert l i a) (min i l.length) = l := by
  have hlen : (l.take i).length = min i l.length := by simp
  rw [spliceOut, spliceInsert, ← hlen, List.take_left]
  have hdrop : (l.take i ++ a :: l.drop i).drop ((l.take i).length + 1) = l.drop i := by
    rw [← List.drop_drop, List.drop_left]
    rfl
  rw [hdrop, List.take_append_drop]

theorem spliceInsert_spliceOut (l : List α) (i : Nat) (a : α) (h : l[i]? = some a) :
    spliceInsert (spliceOut l i) i a = l := by
  have hi : i < l.length := by
    by_contra hn
    rw [List.getElem?_eq_none (by omega)] at h
    exact Option.noConfusion h
  have hlen : (l.take i).length = i := by simp; omega
  have htake : (l.take i ++ l.drop (i + 1)).take i = l.take i := by
    rw [List.take_append_of_le_length (by omega), List.take_take]
    simp
  have hdrop : (l.take i ++ l.drop (i + 1)).drop i = l.drop (i + 1) :=
    List.drop_left' hlen
  rw [spliceInsert, spliceOut, htake, hdrop]
  conv_rhs => rw [← List.take_append_drop i l]
  rw [List.drop_eq_getElem_cons hi]
  simp only [List.getElem?_eq_getElem hi, Option.some.injEq] at h
  rw [h]

theorem lastN_append_of_le (B Z : List α) (n : Nat) (h : n ≤ Z.length) :
    lastN (B ++ Z) n = lastN Z n := by
  rw [lastN, lastN, List.length_append]
  have he : B.length + Z.length - n = B.length + (Z.length - n) := by omega
  rw [he, ← List.drop_drop, List.drop_left]

theorem lastN_lastN_append (X Y : List α) (n : Nat) :
    lastN (lastN X n ++ Y) n = lastN (X ++ Y) n := by
  by_cases hx : X.length ≤ n
  · have hX : lastN X n = X := by
      rw [lastN, Nat.sub_eq_zero_of_le hx, List.drop_zero]
    rw [hX]
  · have hxd : X = X.take (X.length - n) ++ lastN X n := by
      rw [lastN]
      exact (List.take_append_drop _ X).symm
    have hlen2 : n ≤ (lastN X n ++ Y).length := by
      rw [List.length_append, lastN, List.length_drop]
      omega
    calc lastN (lastN X n ++ Y) n
        = lastN (X.take (X.length - n) ++ (lastN X n ++ Y)) n :=
          (lastN_append_of_le _ _ n hlen2).symm
      _ = lastN ((X.take (X.length - n) ++ lastN X n) ++ Y) n := by
          rw [List.append_assoc]
      _ = lastN (X ++ Y) n := by rw [← hxd]

/-! ### Lemmas about the kanban find helpers -/

namespace Kanban

theorem findCardInList_sound (cards : List KanbanCard) (cid : String) (i : Nat)
    (card : KanbanCard) (h : findCardInList cards cid = some (i, card)) :
    cards[i]? = some card ∧ card.id = cid ∧
      ∀ j, j < i → ∀ c, cards[j]? = some c → c.id ≠ cid := by
  induction cards generalizing i with
  | nil => simp [findCardInList] at h
  | cons c0 cs ih =>
    rw [findCardInList] at h
    by_cases h0 : c0.id = cid
    · rw [if_pos h0] at h
      simp only [Option.some.injEq, Prod.mk.injEq] at h
      obtain ⟨hi, hc⟩ := h
      subst hi
      subst hc
      exact ⟨by simp, h0, fun j hj => by omega⟩
    · rw [if_neg h0] at h
      simp only [Option.map_eq_some'] at h
      obtain ⟨⟨i', card'⟩, hfind, heq⟩ := h
      simp only [Prod.mk.injEq] at heq
      obtain ⟨hi, hc⟩ := heq
      subst hi
      subst hc
      obtain ⟨h1, h2, h3⟩ := ih i' hfind
      refine ⟨by simpa using h1, h2, ?_⟩
      intro j hj c hc
      cases j with
      | zero =>
        simp only [List.getElem?_cons_zero, Option.some.injEq] at hc
        subst hc
        exact h0
      | succ k => exact h3 k (by omega) c (by simpa using hc)

theorem findCardInList_complete (cards : List KanbanCard) (cid : String) (i : Nat)
    (card : KanbanCard) (h1 : cards[i]? = some card) (h2 : card.id = cid)
    (h3 : ∀ j, j < i → ∀ c, cards[j]? = some c → c.id ≠ cid) :
    findCardInList cards cid = some (i, card) := by
  induction cards generalizing i with
  | nil => simp at h1
  | cons c0 cs ih =>
    cases i with
    | zero =>
      simp only [List.getElem?_cons_zero, Option.some.injEq] at h1
      subst h1
      rw [findCardInList, if_pos h2]
    | succ k =>
      have h0 : c0.id ≠ cid := h3 0 (by omega) c0 (by simp)
      rw [findCardInList, if_neg h0,
        ih k (by simpa using h1) (fun j hj c hc => h3 (j + 1) (by omega) c (by simpa using hc))]
      rfl

theorem findCardInList_eq_none (cards : List KanbanCard) (cid : String)
    (h : ∀ c ∈ cards, c.id ≠ cid) : findCardInList cards cid = none := by
  induction cards with
  | nil => rfl
  | cons c0 cs ih =>
    rw [findCardInList, if_neg (h c0 (by simp)), ih (fun c hc => h c (by simp [hc]))]
    rfl

theorem findCardLocation_sound (columns : List KanbanColumn) (cid : String)
    (ci i : Nat) (card : KanbanCard)
    (h : findCardLocation columns cid = some (ci, i, card)) :
    (∃ col, columns[ci]? = some col ∧ findCardInList col.cards cid = some (i, card)) ∧
      ∀ cj, cj < ci → ∀ col, columns[cj]? = some col → findCardInList col.cards cid = none := by
  induction columns generalizing ci with
  | nil => simp [findCardLocation] at h
  | cons col0 rest ih =>
    rw [findCardLocation] at h
    cases hf : findCardInList col0.cards cid with
    | some p =>
      obtain ⟨i0, card0⟩ := p
      rw [hf] at h
      simp only [Option.some.injEq, Prod.mk.injEq] at h
      obtain ⟨hci, hi, hc⟩ := h
      subst hci
      subst hi
      subst hc
      exact ⟨⟨col0, by simp, hf⟩, fun cj hj => by omega⟩
    | none =>
      rw [hf] at h
      simp only [Option.map_eq_some'] at h
      obtain ⟨⟨ci', i', card'⟩, hfind, heq⟩ := h
      simp only [Prod.mk.injEq] at heq
      obtain ⟨hci, hi, hc⟩ := heq
      subst hci
      subst hi
      subst hc
      obtain ⟨⟨col, hcol, hfc⟩, hbefore⟩ := ih ci' hfind
      refine ⟨⟨col, by simpa using hcol, hfc⟩, ?_⟩
      intro cj hj col' hcol'
      cases cj with
      | zero =>
        simp only [List.getElem?_cons_zero, Option.some.injEq] at hcol'
        subst hcol'
        exact hf
      | succ k => exact hbefore k (by omega) col' (by simpa using hcol')

theorem findCardLocation_complete (columns : List KanbanColumn) (cid : String)
    (ci i : Nat) (card : KanbanCard) (col : KanbanColumn)
    (hcol : columns[ci]? = some col)
    (hfind : findCardInList col.cards cid = some (i, card))
    (hbefore : ∀ cj, cj < ci → ∀ col', columns[cj]? = some col' →
      findCardInList col'.cards cid = none) :
    findCardLocation columns cid = some (ci, i, card) := by
  induction columns generalizing ci with
  | nil => simp at hcol
  | cons col0 rest ih =>
    cases ci with
    | zero =>
      simp only [List.getElem?_cons_zero, Option.some.injEq] at hcol
      subst hcol
      rw [findCardLocation, hfind]
    | succ k =>
      have h0 : findCardInList col0.cards cid = none := hbefore 0 (by omega) col0 (by simp)
      rw [findCardLocation, h0,
        ih k (by simpa using hcol)
          (fun cj hj col' hcol' => hbefore (cj + 1) (by omega) col' (by simpa using hcol'))]
      rfl

theorem findColumnIdx_sound (columns : List KanbanColumn) (cid : String) (n : Nat)
    (h : findColumnIdx columns cid = some n) :
    ∃ col, columns[n]? = some col ∧ col.id = cid := by
  induction columns generalizing n with
  | nil => simp [findColumnIdx] at h
  | cons col0 rest ih =>
    rw [findColumnIdx] at h
    by_cases h0 : col0.id = cid
    · rw [if_pos h0] at h
      simp only [Option.some.injEq] at h
      subst h
      exact ⟨col0, by simp, h0⟩
    · rw [if_neg h0] at h
      simp only [Option.map_eq_some'] at h
      obtain ⟨n', hfind, hn⟩ := h
      subst hn
      obtain ⟨col, hcol, hid⟩ := ih n' hfind
      exact ⟨col, by simpa using hcol, hid⟩

theorem findColumnIdx_lt_length (columns : List KanbanColumn) (cid : String) (n : Nat)
    (h : findColumnIdx columns cid = some n) : n < columns.length := by
  obtain ⟨col, hcol, _⟩ := findColumnIdx_sound columns cid n h
  by_contra hn
  rw [List.getElem?_eq_none (by omega)] at hcol
  exact Option.noConfusion hcol

theorem findColumnIdx_modifyIdx (columns : List KanbanColumn) (cid : String) (k : Nat)
    (f : KanbanColumn → KanbanColumn) (hid : ∀ col, (f col).id = col.id) :
    findColumnIdx (modifyIdx columns k f) cid = findColumnIdx columns cid := by
  induction columns generalizing k with
  | nil => rfl
  | cons col0 rest ih =>
    cases k with
    | zero => rw [modifyIdx, findColumnIdx, findColumnIdx, hid col0]
    | succ m =>
      rw [modifyIdx, findColumnIdx, findColumnIdx, ih m]

theorem findCmdIdx_lt_length (history : List Command) (sid : Nat) (n : Nat)
    (h : findCmdIdx history sid = some n) : n < history.length := by
  induction history generalizing n with
  | nil => simp [findCmdIdx] at h
  | cons c0 rest ih =>
    rw [findCmdIdx] at h
    by_cases h0 : c0.seqId = sid
    · rw [if_pos h0] at h
      simp only [Option.some.injEq] at h
      subst h
      simp
    · rw [if_neg h0] at h
      simp only [Option.map_eq_some'] at h
      obtain ⟨n', hfind, hn⟩ := h
      subst hn
      have := ih n' hfind
      simp
      omega

/-- `pushCommand` only writes `history` and `historyIndex`. -/
theorem pushCommand_eq_update (ctx : KanbanContext) (cmd : Command) :
    pushCommand ctx cmd =
      { ctx with
          history := (pushCommand ctx cmd).history
          historyIndex := (pushCommand ctx cmd).historyIndex } := by
  unfold pushCommand
  dsimp only
  split <;> rfl

/-- The history after a push is the newest-50 suffix of the truncated log
with the new command appended. -/
theorem pushCommand_history (ctx : KanbanContext) (cmd : Command) :
    (pushCommand ctx cmd).history =
      lastN (ctx.history.take (ctx.historyIndex + 1).toNat ++ [cmd]) MAX_HISTORY_SIZE := by
  unfold pushCommand
  dsimp only
  split
  · rfl
  · rename_i h
    show ctx.history.take _ ++ [cmd] = lastN _ _
    rw [lastN]
    have h0 : (ctx.history.take (ctx.historyIndex + 1).toNat ++ [cmd]).length -
        MAX_HISTORY_SIZE = 0 := by omega
    rw [h0, List.drop_zero]

/-- After a push the index points at the last entry of the log. -/
theorem pushCommand_historyIndex (ctx : KanbanContext) (cmd : Command) :
    (pushCommand ctx cmd).historyIndex = ((pushCommand ctx cmd).history.length : Int) - 1 := by
  unfold pushCommand
  dsimp only
  split
  · rename_i h
    have hM : 1 ≤ MAX_HISTORY_SIZE := by decide
    simp only [List.length_drop, List.length_append, List.length_take, List.length_cons,
      List.length_nil] at h ⊢
    omega
  · rfl

/-- The log never exceeds `MAX_HISTORY_SIZE` after a push. -/
theorem pushCommand_history_length_le (ctx : KanbanContext) (cmd : Command) :
    (pushCommand ctx cmd).history.length ≤ MAX_HISTORY_SIZE := by
  rw [pushCommand_history, lastN]
  simp only [List.length_drop]
  omega

/-- The pushed command is the last entry of the log. -/
theorem pushCommand_getLast (ctx : KanbanContext) (cmd : Command) :
    (pushCommand ctx cmd).history.getLast? = some cmd := by
  rw [pushCommand_history, lastN]
  have hm : 1 ≤ MAX_HISTORY_SIZE := by decide
  rw [List.drop_append_of_le_length (by simp; omega)]
  exact List.getLast?_concat _

/-- Folding pushes over a list of commands keeps the newest-50 suffix, when
starting from a state whose index is at the end of a log within bounds. -/
theorem foldl_pushCommand_history (cmds : List Command) (ctx : KanbanContext)
    (hend : ctx.historyIndex = (ctx.history.length : Int) - 1)
    (hlen : ctx.history.length ≤ MAX_HISTORY_SIZE) :
    (cmds.foldl pushCommand ctx).history = lastN (ctx.history ++ cmds) MAX_HISTORY_SIZE := by
  induction cmds generalizing ctx with
  | nil =>
    rw [List.foldl_nil, List.append_nil, lastN]
    have h0 : ctx.history.length - MAX_HISTORY_SIZE = 0 := by omega
    rw [h0, List.drop_zero]
  | cons c cs ih =>
    rw [List.foldl_cons,
      ih (pushCommand ctx c) (pushCommand_historyIndex ctx c) (pushCommand_history_length_le ctx c),
      pushCommand_history]
    have ht : (ctx.historyIndex + 1).toNat = ctx.history.length := by omega
    rw [ht, List.take_length, lastN_lastN_append, List.append_assoc, List.singleton_append]

theorem mem_allCardIds (columns : List KanbanColumn) (ci : Nat) (col : KanbanColumn)
    (c : KanbanCard) (hcol : columns[ci]? = some col) (hc : c ∈ col.cards) :
    c.id ∈ allCardIds columns := by
  unfold allCardIds
  rw [List.mem_flatten]
  refine ⟨col.cards.map (fun k => k.id), ?_, List.mem_map_of_mem _ hc⟩
  exact List.mem_map_of_mem _ (List.mem_iff_getElem?.mpr ⟨ci, hcol⟩)

theorem nodup_column_ids (columns : List KanbanColumn) (ci : Nat) (col : KanbanColumn)
    (hnd : (allCardIds columns).Nodup) (hcol : columns[ci]? = some col) :
    (col.cards.map (fun c => c.id)).Nodup := by
  unfold allCardIds at hnd
  rw [List.nodup_flatten] at hnd
  exact hnd.1 _ (List.mem_map_of_mem _ (List.mem_iff_getElem?.mpr ⟨ci, hcol⟩))

theorem disjoint_column_ids (columns : List KanbanColumn) (ci cj : Nat)
    (colA colB : KanbanColumn) (hnd : (allCardIds columns).Nodup)
    (hA : columns[ci]? = some colA) (hB : columns[cj]? = some colB) (hne : ci ≠ cj)
    (s : String) (hsA : s ∈ colA.cards.map (fun c => c.id))
    (hsB : s ∈ colB.cards.map (fun c => c.id)) : False := by
  unfold allCardIds at hnd
  rw [List.nodup_flatten] at hnd
  have hpw := hnd.2
  rw [List.pairwise_iff_get] at hpw
  have hci : ci < columns.length := by
    by_contra hc
    rw [List.getElem?_eq_none (by omega)] at hA
    exact Option.noConfusion hA
  have hcj : cj < columns.length := by
    by_contra hc
    rw [List.getElem?_eq_none (by omega)] at hB
    exact Option.noConfusion hB
  have hgA : columns[ci] = colA := by
    rwa [List.getElem?_eq_getElem hci, Option.some.injEq] at hA
  have hgB : columns[cj] = colB := by
    rwa [List.getElem?_eq_getElem hcj, Option.some.injEq] at hB
  have hlen : (columns.map (fun col => col.cards.map (fun c => c.id))).length = columns.length :=
    List.length_map _ _
  rcases Nat.lt_or_ge ci cj with hlt | hge
  · have hd := hpw ⟨ci, by omega⟩ ⟨cj, by omega⟩ (by simpa using hlt)
    simp only [List.get_eq_getElem, List.getElem_map, hgA, hgB] at hd
    exact hd hsA hsB
  · have hlt : cj < ci := by omega
    have hd := hpw ⟨cj, by omega⟩ ⟨ci, by omega⟩ (by simpa using hlt)
    simp only [List.get_eq_getElem, List.getElem_map, hgA, hgB] at hd
    exact hd hsB hsA

theorem spliceOut_no_id (cards : List KanbanCard) (i : Nat) (card : KanbanCard)
    (hget : cards[i]? = some card) (hnd : (cards.map (fun c => c.id)).Nodup) :
    ∀ c ∈ spliceOut cards i, c.id ≠ card.id := by
  have hi : i < cards.length := by
    by_contra hc
    rw [List.getElem?_eq_none (by omega)] at hget
    exact Option.noConfusion hget
  have hg : cards[i] = card := by
    rwa [List.getElem?_eq_getElem hi, Option.some.injEq] at hget
  have hdec : cards = cards.take i ++ card :: cards.drop (i + 1) := by
    conv_lhs => rw [← List.take_append_drop i cards]
    rw [List.drop_eq_getElem_cons hi, hg]
  rw [hdec, List.map_append, List.map_cons, List.nodup_append] at hnd
  obtain ⟨hA, hB, hdisj⟩ := hnd
  rw [List.nodup_cons] at hB
  have hnotinA : card.id ∉ (cards.take i).map (fun c => c.id) :=
    fun hmem => hdisj hmem (List.mem_cons_self _ _)
  intro c hc he
  rw [spliceOut, List.mem_append] at hc
  rcases hc with hc | hc
  · exact hnotinA (he ▸ List.mem_map_of_mem _ hc)
  · exact hB.1 (he ▸ List.mem_map_of_mem _ hc)

/-- The ascending `jumpToRevision` loop folds `executeCommand` over the
history slice from `i` up to and including `stop`. -/
theorem execForward_eq_foldl (history : List Command) (columns : List KanbanColumn)
    (i stop : Nat) (hstop : stop < history.length) :
    execForward history columns i stop =
      ((history.take (stop + 1)).drop i).foldl executeCommand columns := by
  rw [execForward]
  split
  · rename_i hle
    have hi : i < history.length := by omega
    cases heq : history[i]? with
    | none =>
      rw [List.getElem?_eq_none_iff] at heq
      omega
    | some c =>
      dsimp only
      rw [execForward_eq_foldl history (executeCommand columns c) (i + 1) stop hstop]
      have h1 : i < (history.take (stop + 1)).length := by
        simp
        omega
      have h2 : (history.take (stop + 1))[i] = c := by
        have h3 : (history.take (stop + 1))[i]? = some c := by
          rw [List.getElem?_take, if_pos (by omega), heq]
        rwa [List.getElem?_eq_getElem h1, Option.some.injEq] at h3
      rw [List.drop_eq_getElem_cons h1, h2, List.foldl_cons]
  · rename_i hgt
    have hnil : (history.take (stop + 1)).drop i = [] :=
      List.drop_eq_nil_of_le (by simp; omega)
    rw [hnil, List.foldl_nil]
termination_by stop + 1 - i

/-- The descending `jumpToRevision` loop folds `reverseCommand` over the
reversed history slice strictly above `stop` up to and including `i`. -/
theorem execBackward_eq_foldl (history : List Command) (columns : List KanbanColumn)
    (i stop : Nat) (hstop : stop ≤ i) (hi : i < history.length) :
    execBackward history columns i stop =
      (((history.take (i + 1)).drop (stop + 1)).reverse).foldl reverseCommand columns := by
  rw [execBackward]
  split
  · rename_i hlt
    cases heq : history[i]? with
    | none =>
      rw [List.getElem?_eq_none_iff] at heq
      omega
    | some c =>
      dsimp only
      rw [execBackward_eq_foldl history (reverseCommand columns c) (i - 1) stop (by omega)
        (by omega)]
      have hone : i - 1 + 1 = i := by omega
      rw [hone]
      have hsplit : (history.take (i + 1)).drop (stop + 1) =
          ((history.take i).drop (stop + 1)) ++ [c] := by
        rw [List.take_succ, heq, Option.toList_some,
          List.drop_append_of_le_length (by simp; omega)]
      rw [hsplit, List.reverse_append, List.reverse_singleton, List.singleton_append,
        List.foldl_cons]
  · rename_i hge
    have hnil : (history.take (i + 1)).drop (stop + 1) = [] :=
      List.drop_eq_nil_of_le (by simp; omega)
    rw [hnil, List.reverse_nil, List.foldl_nil]
termination_by i

/-- Round trip for a consistent Move command: reversing right after
executing restores the document, also when source and destination columns
coincide. -/
theorem move_roundtrip (columns : List KanbanColumn)
    (cardId cardTitle fromColumnId : String) (fromIndex : Nat)
    (toColumnId : String) (toIndex ts : Nat) (d : String) (sq : Nat)
    (hnd : (allCardIds columns).Nodup)
    (ci : Nat) (card : KanbanCard)
    (hfind : findCardLocation columns cardId = some (ci, fromIndex, card))
    (hfc : findColumnIdx columns fromColumnId = some ci)
    (ti : Nat) (htc : findColumnIdx columns toColumnId = some ti) :
    reverseCommand
      (executeCommand columns
        (.move cardId cardTitle fromColumnId fromIndex toColumnId toIndex ts d sq))
      (.move cardId cardTitle fromColumnId fromIndex toColumnId toIndex ts d sq) = columns := by
  obtain ⟨⟨colS, hcolS, hfindS⟩, hbeforeCols⟩ :=
    findCardLocation_sound columns cardId ci fromIndex card hfind
  obtain ⟨hgetS, hid, hbeforeS⟩ := findCardInList_sound colS.cards cardId fromIndex card hfindS
  have hndS := nodup_column_ids columns ci colS hnd hcolS
  have hnoS := spliceOut_no_id colS.cards fromIndex card hgetS hndS
  have hother : ∀ cj col', cj ≠ ci → columns[cj]? = some col' →
      ∀ c ∈ col'.cards, c.id ≠ card.id := by
    intro cj col' hne hcol' c hc he
    exact disjoint_column_ids columns ci cj colS col' hnd hcolS hcol' (fun h => hne h.symm)
      card.id (List.mem_map_of_mem _ (List.mem_iff_getElem?.mpr ⟨fromIndex, hgetS⟩))
      (he ▸ List.mem_map_of_mem _ hc)
  have hti : ti < columns.length := findColumnIdx_lt_length columns toColumnId ti htc
  obtain ⟨colT, hcolT1, hnoT⟩ :
      ∃ colT, (modifyIdx columns ci
          (fun col => { col with cards := spliceOut col.cards fromIndex }))[ti]? = some colT ∧
        ∀ c ∈ colT.cards, c.id ≠ card.id := by
    by_cases hte : ti = ci
    · subst hte
      refine ⟨{ colS with cards := spliceOut colS.cards fromIndex }, ?_, hnoS⟩
      rw [modifyIdx_getElem?, if_pos rfl, hcolS]
      rfl
    · obtain ⟨colT, hcolT⟩ : ∃ colT, columns[ti]? = some colT :=
        ⟨columns[ti], List.getElem?_eq_getElem hti⟩
      refine ⟨colT, ?_, fun c hc => hother ti colT hte hcolT c hc⟩
      rw [modifyIdx_getElem?, if_neg hte, hcolT]
  have hexec : executeCommand columns
      (.move cardId cardTitle fromColumnId fromIndex toColumnId toIndex ts d sq) =
      modifyIdx (modifyIdx columns ci (fun col => { col with cards := spliceOut col.cards fromIndex }))
        ti (fun col => { col with cards := spliceInsert col.cards toIndex card }) := by
    simp only [executeCommand]
    rw [hfind]
    dsimp only
    rw [findColumnIdx_modifyIdx columns toColumnId ci
      (fun col => { col with cards := spliceOut col.cards fromIndex }) (fun col => rfl), htc]
  have hfind2 : findCardLocation
      (modifyIdx (modifyIdx columns ci (fun col => { col with cards := spliceOut col.cards fromIndex }))
        ti (fun col => { col with cards := spliceInsert col.cards toIndex card })) cardId =
      some (ti, min toIndex colT.cards.length, card) := by
    apply findCardLocation_complete _ _ _ _ _
      { colT with cards := spliceInsert colT.cards toIndex card }
    · rw [modifyIdx_getElem?, if_pos rfl, hcolT1]
      rfl
    · apply findCardInList_complete
      · exact spliceInsert_getElem?_self colT.cards toIndex card
      · exact hid
      · intro j hj c hc
        rw [spliceInsert_getElem?_lt _ _ _ _ hj] at hc
        rw [← hid]
        exact hnoT c (List.mem_iff_getElem?.mpr ⟨j, hc⟩)
    · intro cj hjlt col' hcol'
      rw [modifyIdx_getElem?, if_neg (by omega), modifyIdx_getElem?] at hcol'
      by_cases hje : cj = ci
      · rw [if_pos hje, hcolS, Option.map_some'] at hcol'
        injection hcol' with hcol'
        subst hcol'
        apply findCardInList_eq_none
        intro c hc
        rw [← hid]
        exact hnoS c hc
      · rw [if_neg hje] at hcol'
        apply findCardInList_eq_none
        intro c hc
        rw [← hid]
        exact hother cj col' hje hcol' c hc
  have hrev3 : modifyIdx
      (modifyIdx (modifyIdx columns ci (fun col => { col with cards := spliceOut col.cards fromIndex }))
        ti (fun col => { col with cards := spliceInsert col.cards toIndex card })) ti
      (fun col => { col with cards := spliceOut col.cards (min toIndex colT.cards.length) }) =
      modifyIdx columns ci (fun col => { col with cards := spliceOut col.cards fromIndex }) := by
    rw [modifyIdx_modifyIdx]
    apply modifyIdx_eq_self
    intro a ha
    rw [hcolT1] at ha
    injection ha with ha
    subst ha
    show { colT with
      cards := (spliceOut (spliceInsert colT.cards toIndex card) (min toIndex colT.cards.length)) } = colT
    rw [spliceOut_spliceInsert]
  have hfc3 : findColumnIdx
      (modifyIdx columns ci (fun col => { col with cards := spliceOut col.cards fromIndex }))
      fromColumnId = some ci := by
    rw [findColumnIdx_modifyIdx columns fromColumnId ci
      (fun col => { col with cards := spliceOut col.cards fromIndex }) (fun col => rfl)]
    exact hfc
  have hfinal : modifyIdx
      (modifyIdx columns ci (fun col => { col with cards := spliceOut col.cards fromIndex })) ci
      (fun col => { col with cards := spliceInsert col.cards fromIndex card }) = columns := by
    rw [modifyIdx_modifyIdx]
    apply modifyIdx_eq_self
    intro a ha
    rw [hcolS] at ha
    injection ha with ha
    subst ha
    show { colS with cards := spliceInsert (spliceOut colS.cards fromIndex) fromIndex card } = colS
    rw [spliceInsert_spliceOut _ _ _ hgetS]
  rw [hexec]
  simp only [reverseCommand]
  rw [hfind2]
  dsimp only
  rw [hrev3, hfc3]
  dsimp only
  exact hfinal

theorem modifyIdx_congr (l : List α) (n : Nat) (f g : α → α)
    (h : ∀ a, l[n]? = some a → f a = g a) : modifyIdx l n f = modifyIdx l n g := by
  induction l generalizing n with
  | nil => rfl
  | cons a t ih =>
    cases n with
    | zero => simp [modifyIdx, h a (by simp)]
    | succ m =>
      simp only [modifyIdx, List.cons.injEq, true_and]
      exact ih m (fun b hb => h b (by simpa using hb))

theorem spliceOut_concat (l : List α) (a : α) : spliceOut (l ++ [a]) l.length = l := by
  rw [spliceOut, List.take_left, List.drop_eq_nil_of_le (by simp), List.append_nil]

/-- Round trip for a consistent Create command: deleting the created card
right after pushing it restores the document, provided the created id is
fresh. -/
theorem create_roundtrip (columns : List KanbanColumn) (card : KanbanCard) (columnId : String)
    (ts : Nat) (d : String) (sq : Nat)
    (ci : Nat) (hc : findColumnIdx columns columnId = some ci)
    (hfresh : card.id ∉ allCardIds columns) :
    reverseCommand (executeCommand columns (.create card columnId ts d sq))
      (.create card columnId ts d sq) = columns := by
  obtain ⟨colC, hcolC, _⟩ := findColumnIdx_sound columns columnId ci hc
  have hexec : executeCommand columns (.create card columnId ts d sq) =
      modifyIdx columns ci (fun col => { col with cards := col.cards ++ [card] }) := by
    simp only [executeCommand]
    rw [hc]
  have hfcl : findCardInList (colC.cards ++ [card]) card.id =
      some (colC.cards.length, card) := by
    apply findCardInList_complete
    · exact List.getElem?_concat_length _ _
    · rfl
    · intro j hj c hcj he
      rw [List.getElem?_append, if_pos (by omega)] at hcj
      exact hfresh (he ▸ mem_allCardIds columns ci colC c hcolC
        (List.mem_iff_getElem?.mpr ⟨j, hcj⟩))
  rw [hexec]
  simp only [reverseCommand]
  rw [findColumnIdx_modifyIdx columns columnId ci
    (fun col => { col with cards := col.cards ++ [card] }) (fun col => rfl), hc]
  dsimp only
  rw [modifyIdx_modifyIdx]
  apply modifyIdx_eq_self
  intro a ha
  rw [hcolC] at ha
  injection ha with ha
  subst ha
  show (match findCardInList (colC.cards ++ [card]) card.id with
    | none => { colC with cards := colC.cards ++ [card] }
    | some (i, _) =>
      { colC with cards := (spliceOut (colC.cards ++ [card]) i) }) = colC
  rw [hfcl]
  dsimp only
  rw [spliceOut_concat]

/-- Round trip for a consistent Edit command: restoring the recorded old
values right after applying the new ones restores the document, provided
the old values record the card as it stands. -/
theorem edit_roundtrip (columns : List KanbanColumn) (cardId : String)
    (oldValues newValues : EditValues) (ts : Nat) (d : String) (sq : Nat)
    (ci i : Nat) (card : KanbanCard)
    (hfind : findCardLocation columns cardId = some (ci, i, card))
    (ht : card.title = oldValues.title) (hp : card.priority = oldValues.priority)
    (hde : card.description = orUndefined oldValues.description)
    (ha : card.assignee = orUndefined oldValues.assignee) :
    reverseCommand (executeCommand columns (.edit cardId oldValues newValues ts d sq))
      (.edit cardId oldValues newValues ts d sq) = columns := by
  obtain ⟨⟨colS, hcolS, hfindS⟩, hbeforeCols⟩ := findCardLocation_sound columns cardId ci i card hfind
  obtain ⟨hgetS, hid, hbeforeS⟩ := findCardInList_sound colS.cards cardId i card hfindS
  have hexec : executeCommand columns (.edit cardId oldValues newValues ts d sq) =
      modifyIdx columns ci
        (fun col => { col with cards := modifyIdx col.cards i (applyEdit newValues) }) := by
    simp only [executeCommand]
    rw [hfind]
  have hfind2 : findCardLocation
      (modifyIdx columns ci
        (fun col => { col with cards := modifyIdx col.cards i (applyEdit newValues) })) cardId =
      some (ci, i, applyEdit newValues card) := by
    apply findCardLocation_complete _ _ _ _ _
      { colS with cards := modifyIdx colS.cards i (applyEdit newValues) }
    · rw [modifyIdx_getElem?, if_pos rfl, hcolS]
      rfl
    · apply findCardInList_complete
      · rw [modifyIdx_getElem?, if_pos rfl, hgetS]
        rfl
      · exact hid
      · intro j hj c hcj
        rw [modifyIdx_getElem?, if_neg (by omega)] at hcj
        exact hbeforeS j hj c hcj
    · intro cj hjlt col' hcol'
      rw [modifyIdx_getElem?, if_neg (by omega)] at hcol'
      exact hbeforeCols cj hjlt col' hcol'
  have hcard : applyEdit oldValues (applyEdit newValues card) = card := by
    obtain ⟨cid0, t0, de0, p0, a0, ca0⟩ := card
    simp only [applyEdit, KanbanCard.mk.injEq, true_and, and_true]
    exact ⟨ht.symm, hde.symm, hp.symm, ha.symm⟩
  rw [hexec]
  simp only [reverseCommand]
  rw [hfind2]
  dsimp only
  rw [modifyIdx_modifyIdx]
  apply modifyIdx_eq_self
  intro a hcola
  rw [hcolS] at hcola
  injection hcola with hcola
  subst hcola
  show { colS with
    cards := (modifyIdx (modifyIdx colS.cards i (applyEdit newValues)) i (applyEdit oldValues)) } = colS
  rw [modifyIdx_modifyIdx]
  have : modifyIdx colS.cards i (fun a => applyEdit oldValues (applyEdit newValues a)) =
      colS.cards := by
    apply modifyIdx_eq_self
    intro c hcc
    rw [hgetS] at hcc
    injection hcc with hcc
    subst hcc
    exact hcard
  rw [this]

/-- Round trip for a consistent Delete command: re-inserting the recorded
card at the recorded index right after deleting it restores the document. -/
theorem delete_roundtrip (columns : List KanbanColumn) (card : KanbanCard) (columnId : String)
    (index ts : Nat) (d : String) (sq : Nat)
    (ci : Nat) (col : KanbanColumn)
    (hc : findColumnIdx columns columnId = some ci)
    (hcol : columns[ci]? = some col)
    (hfindc : findCardInList col.cards card.id = some (index, card)) :
    reverseCommand (executeCommand columns (.delete card columnId index ts d sq))
      (.delete card columnId index ts d sq) = columns := by
  obtain ⟨hget, _, _⟩ := findCardInList_sound col.cards card.id index card hfindc
  have hexec : executeCommand columns (.delete card columnId index ts d sq) =
      modifyIdx columns ci (fun colx => { colx with cards := spliceOut colx.cards index }) := by
    simp only [executeCommand]
    rw [hc]
    dsimp only
    apply modifyIdx_congr
    intro a ha
    rw [hcol] at ha
    injection ha with ha
    subst ha
    rw [hfindc]
  rw [hexec]
  simp only [reverseCommand]
  rw [findColumnIdx_modifyIdx columns columnId ci
    (fun colx => { colx with cards := spliceOut colx.cards index }) (fun colx => rfl), hc]
  dsimp only
  rw [modifyIdx_modifyIdx]
  apply modifyIdx_eq_self
  intro a ha
  rw [hcol] at ha
  injection ha with ha
  subst ha
  show { col with cards := (spliceInsert (spliceOut col.cards index) index card) } = col
  rw [spliceInsert_spliceOut _ _ _ hget]

/-- Neither `pushCommand` nor `resetDragState` touches `dropPosition`. -/
theorem dropPosition_after_push (c : KanbanContext) (cmd : Command) :
    (resetDragState (pushCommand c cmd)).dropPosition = c.dropPosition := by
  show (pushCommand c cmd).dropPosition = c.dropPosition
  unfold pushCommand
  dsimp only
  split <;> rfl

end Kanban

/-! ### Claim theorems -/

open Kanban LiveSearch TodoList

/-- C8 (confirmed): from an empty todo list, adding `Buy milk`, adding
`Walk dog`, then toggling `Buy milk` completed, leaves the texts in order
`[Buy milk, Walk dog]` and the `remainingItems` derived value at `1`. -/
theorem claim_C8_todo_scenario :
    (TodoList.toggleTodo
        (TodoList.addTodoItem (TodoList.updateNewTodoText
          (TodoList.addTodoItem (TodoList.updateNewTodoText TodoList.emptyTodoCtx "Buy milk"))
          "Walk dog"))
        0).todos.map (fun t => t.text) = ["Buy milk", "Walk dog"] ∧
      TodoList.remainingItems
        (TodoList.toggleTodo
          (TodoList.addTodoItem (TodoList.updateNewTodoText
            (TodoList.addTodoItem (TodoList.updateNewTodoText TodoList.emptyTodoCtx "Buy milk"))
            "Walk dog"))
          0) = 1 := by
  decide

/-- A resumption of `updateQuery` whose captured `searchId` no longer equals
the pending one writes nothing. -/
theorem updateQueryResolve_stale (ctx : LiveSearchContext) (searchId : Nat)
    (outcome : Except Unit (List SearchResult)) (h : ctx.pendingSearchId ≠ searchId) :
    updateQueryResolve ctx searchId outcome = ctx := by
  unfold updateQueryResolve
  cases outcome with
  | ok results => simp [h]
  | error e => simp [h]

/-- C4 (confirmed): a superseded `updateQuery` invocation performs no
visible state writes on resumption (it touches neither `results` nor
`isLoading`), and in the two-keystroke race only the later invocation
writes its results. -/
theorem claim_C4_stale_suppression :
    (∀ (ctx : LiveSearchContext) (searchId : Nat) (outcome : Except Unit (List SearchResult)),
        ctx.pendingSearchId ≠ searchId → updateQueryResolve ctx searchId outcome = ctx) ∧
    (∀ (ctx : LiveSearchContext) (q1 q2 : String)
        (outcome : Except Unit (List SearchResult)) (res : List SearchResult),
        jsTrim q1 ≠ "" → jsTrim q2 ≠ "" →
        (updateQueryStart ctx q1).2 = some (ctx.pendingSearchId + 1) ∧
        (updateQueryStart (updateQueryStart ctx q1).1 q2).1.pendingSearchId ≠
          ctx.pendingSearchId + 1 ∧
        updateQueryResolve (updateQueryStart (updateQueryStart ctx q1).1 q2).1
            (ctx.pendingSearchId + 1) outcome =
          (updateQueryStart (updateQueryStart ctx q1).1 q2).1 ∧
        (updateQueryResolve (updateQueryStart (updateQueryStart ctx q1).1 q2).1
            (updateQueryStart (updateQueryStart ctx q1).1 q2).1.pendingSearchId
            (Except.ok res)).results = res ∧
        (updateQueryResolve (updateQueryStart (updateQueryStart ctx q1).1 q2).1
            (updateQueryStart (updateQueryStart ctx q1).1 q2).1.pendingSearchId
            (Except.ok res)).isLoading = false) := by
  refine ⟨updateQueryResolve_stale, ?_⟩
  intro ctx q1 q2 outcome res h1 h2
  have hp1 : (updateQueryStart ctx q1).1.pendingSearchId = ctx.pendingSearchId + 1 := by
    simp [updateQueryStart, h1]
  have hp2 : (updateQueryStart (updateQueryStart ctx q1).1 q2).1.pendingSearchId =
      ctx.pendingSearchId + 2 := by
    simp [updateQueryStart, h1, h2]
  refine ⟨by simp [updateQueryStart, h1], by omega,
    updateQueryResolve_stale _ _ _ (by omega), ?_, ?_⟩ <;>
    simp [updateQueryResolve]

/-- Witness for C4 at concrete inputs: a stale resolution over the initial
context is a no-op, and in the `react`/`redux` race the later invocation
writes its results. -/
theorem claim_C4_witness :
    updateQueryResolve initialSearchCtx 7 (Except.ok [sampleResult]) = initialSearchCtx ∧
    (updateQueryResolve
        (updateQueryStart (updateQueryStart initialSearchCtx "react").1 "redux").1
        ((updateQueryStart (updateQueryStart initialSearchCtx "react").1 "redux").1.pendingSearchId)
        (Except.ok [sampleResult])).results = [sampleResult] :=
  ⟨claim_C4_stale_suppression.1 initialSearchCtx 7 (Except.ok [sampleResult]) (by decide),
    (claim_C4_stale_suppression.2 initialSearchCtx "react" "redux" (Except.ok []) [sampleResult]
      (by decide) (by decide)).2.2.2.1⟩

/-- C5 (confirmed): undo at history index `-1` and redo at the end of the
log are no-ops that change nothing; otherwise undo reverses the command at
the current index and decrements the index, and redo increments the index
and executes the command at the new index. -/
theorem claim_C5_boundary_noops (ctx : KanbanContext) :
    (ctx.historyIndex = -1 → performUndo ctx = ctx) ∧
    (ctx.historyIndex = (ctx.history.length : Int) - 1 → performRedo ctx = ctx) ∧
    (∀ cmd, 0 ≤ ctx.historyIndex → ctx.history[ctx.historyIndex.toNat]? = some cmd →
      performUndo ctx =
        { ctx with
            columns := reverseCommand ctx.columns cmd
            historyIndex := ctx.historyIndex - 1 }) ∧
    (∀ cmd, ctx.historyIndex < (ctx.history.length : Int) - 1 →
      ctx.history[(ctx.historyIndex + 1).toNat]? = some cmd →
      performRedo ctx =
        { ctx with
            historyIndex := ctx.historyIndex + 1
            columns := executeCommand ctx.columns cmd }) := by
  refine ⟨?_, ?_, ?_, ?_⟩
  · intro h
    simp [performUndo, h]
  · intro h
    simp [performRedo, h]
  · intro cmd h1 h2
    unfold performUndo
    rw [if_pos h1, h2]
  · intro cmd h1 h2
    unfold performRedo
    rw [if_pos h1, h2]

/-- Witness for C5 at concrete inputs: underflow and overflow no-ops, an
active undo on `oneCmdCtx`, and an active redo on `twoCmdCtx`. -/
theorem claim_C5_witness :
    performUndo baseCtx = baseCtx ∧
    performRedo oneCmdCtx = oneCmdCtx ∧
    performUndo oneCmdCtx =
      { oneCmdCtx with
          columns := reverseCommand oneCmdCtx.columns sampleMove
          historyIndex := oneCmdCtx.historyIndex - 1 } ∧
    performRedo twoCmdCtx =
      { twoCmdCtx with
          historyIndex := twoCmdCtx.historyIndex + 1
          columns := executeCommand twoCmdCtx.columns cmdD } :=
  ⟨(claim_C5_boundary_noops baseCtx).1 (by decide),
    (claim_C5_boundary_noops oneCmdCtx).2.1 (by decide),
    (claim_C5_boundary_noops oneCmdCtx).2.2.1 sampleMove (by decide) (by decide),
    (claim_C5_boundary_noops twoCmdCtx).2.2.2 cmdD (by decide) (by decide)⟩

/-- C1 (counterexample): the claim quantifies over every document and every
command, but an Edit command whose recorded `oldValues` do not match the
document is not round-tripped: executing `mismatchedEdit` on `miniColumns`
sets the title of card `a` to `b`, and reversing it writes the recorded old
title `z`, not the original title `a`. -/
theorem claim_C1_counterexample :
    reverseCommand (executeCommand miniColumns mismatchedEdit) mismatchedEdit ≠ miniColumns := by
  decide

/-- C1 (amended): for every columns document with pairwise distinct card
ids and every command consistent with it (`Consistent`: the card/column
data recorded in the command describes the document), applying
`reverseCommand` immediately after `executeCommand` returns the document
to exactly its prior state, for all four command kinds, including a Move
whose source and destination columns differ. -/
theorem claim_C1_amended (columns : List KanbanColumn) (cmd : Command)
    (hnd : (allCardIds columns).Nodup) (hcons : Consistent columns cmd) :
    reverseCommand (executeCommand columns cmd) cmd = columns := by
  cases cmd with
  | move cardId cardTitle fromColumnId fromIndex toColumnId toIndex ts d sq =>
    simp only [Consistent] at hcons
    obtain ⟨⟨ci, card, hfind, hfc⟩, ⟨ti, htc⟩⟩ := hcons
    exact move_roundtrip columns cardId cardTitle fromColumnId fromIndex toColumnId toIndex
      ts d sq hnd ci card hfind hfc ti htc
  | create card columnId ts d sq =>
    simp only [Consistent] at hcons
    obtain ⟨⟨ci, hc⟩, hfresh⟩ := hcons
    exact create_roundtrip columns card columnId ts d sq ci hc hfresh
  | edit cardId oldValues newValues ts d sq =>
    simp only [Consistent] at hcons
    obtain ⟨ci, i, card, hfind, ht, hp, hde, ha⟩ := hcons
    exact edit_roundtrip columns cardId oldValues newValues ts d sq ci i card hfind ht hp hde ha
  | delete card columnId index ts d sq =>
    simp only [Consistent] at hcons
    obtain ⟨ci, col, hc, hcol, hfindc⟩ := hcons
    exact delete_roundtrip columns card columnId index ts d sq ci col hc hcol hfindc

/-- Witness for C1: the round trip at one consistent command of each of the
four kinds over the sample document. -/
theorem claim_C1_witness :
    reverseCommand (executeCommand baseCtx.columns sampleMove) sampleMove = baseCtx.columns ∧
    reverseCommand (executeCommand baseCtx.columns cmdD) cmdD = baseCtx.columns ∧
    reverseCommand (executeCommand baseCtx.columns editB) editB = baseCtx.columns ∧
    reverseCommand (executeCommand baseCtx.columns deleteC) deleteC = baseCtx.columns :=
  ⟨claim_C1_amended baseCtx.columns sampleMove (by decide)
      ⟨⟨0, sampleCard "a", by decide, by decide⟩, ⟨0, by decide⟩⟩,
    claim_C1_amended baseCtx.columns cmdD (by decide)
      ⟨⟨0, by decide⟩, by decide⟩,
    claim_C1_amended baseCtx.columns editB (by decide)
      ⟨0, 1, sampleCard "b", by decide, by decide, by decide, by decide, by decide⟩,
    claim_C1_amended baseCtx.columns deleteC (by decide)
      ⟨0, sampleColumn, by decide, by decide, by decide⟩⟩

/-- C3 (confirmed): `pushCommand` discards the entries beyond the pre-call
index, appends the command as the last entry, keeps the log within
`MAX_HISTORY_SIZE` by dropping the oldest entries, and leaves the index on
the last entry; consequently a sequence of at least 50 pushes leaves
exactly the newest 50 pushed commands in the log. -/
theorem claim_C3_push_bounds :
    (∀ (ctx : KanbanContext) (cmd : Command),
      (pushCommand ctx cmd).history =
        lastN (ctx.history.take (ctx.historyIndex + 1).toNat ++ [cmd]) MAX_HISTORY_SIZE ∧
      (pushCommand ctx cmd).history.getLast? = some cmd ∧
      (pushCommand ctx cmd).history.length ≤ MAX_HISTORY_SIZE ∧
      (pushCommand ctx cmd).historyIndex = ((pushCommand ctx cmd).history.length : Int) - 1) ∧
    (∀ (ctx : KanbanContext) (cmds : List Command), MAX_HISTORY_SIZE ≤ cmds.length →
      (cmds.foldl pushCommand ctx).history = cmds.drop (cmds.length - MAX_HISTORY_SIZE)) := by
  constructor
  · intro ctx cmd
    exact ⟨pushCommand_history ctx cmd, pushCommand_getLast ctx cmd,
      pushCommand_history_length_le ctx cmd, pushCommand_historyIndex ctx cmd⟩
  · intro ctx cmds h
    cases cmds with
    | nil => exact absurd h (by decide)
    | cons c cs =>
      rw [List.foldl_cons,
        foldl_pushCommand_history cs (pushCommand ctx c) (pushCommand_historyIndex ctx c)
          (pushCommand_history_length_le ctx c),
        pushCommand_history, lastN_lastN_append, List.append_assoc, List.singleton_append,
        lastN_append_of_le _ _ _ (by simpa using h)]
      rfl

/-- Witness for C3: pushing the 51 commands of `manyCmds` leaves exactly
the newest 50 of them in the log. -/
theorem claim_C3_witness :
    MAX_HISTORY_SIZE ≤ manyCmds.length ∧
    (manyCmds.foldl pushCommand baseCtx).history =
      manyCmds.drop (manyCmds.length - MAX_HISTORY_SIZE) :=
  ⟨by decide, claim_C3_push_bounds.2 baseCtx manyCmds (by decide)⟩

/-- C2 (code bug): an in-column forward reorder recorded by
`handleDropOnColumn` is not restored by undo followed by redo. Dropping
card `a` before card `c` in the column `[a, b, c]` produces `[b, a, c]`;
undo restores `[a, b, c]`, but redo (`executeCommand` of the recorded Move
with `to.index = 2`) produces `[b, c, a]`, not the pre-undo state. -/
theorem claim_C2_failing_input :
    (handleDropOnColumn dropCtx (some "c1") 100 1).columns.map
        (fun c => c.cards.map (fun k => k.id)) = [["b", "a", "c"]] ∧
    (performUndo (handleDropOnColumn dropCtx (some "c1") 100 1)).columns.map
        (fun c => c.cards.map (fun k => k.id)) = [["a", "b", "c"]] ∧
    (performRedo (performUndo (handleDropOnColumn dropCtx (some "c1") 100 1))).columns.map
        (fun c => c.cards.map (fun k => k.id)) = [["b", "c", "a"]] ∧
    performRedo (performUndo (handleDropOnColumn dropCtx (some "c1") 100 1)) ≠
      handleDropOnColumn dropCtx (some "c1") 100 1 := by
  decide

/-- C7 (counterexample): `handleDropOnColumn` can return with the drag
session still dangling. In `strayDragCtx` the source column id `s` is not
found, the action returns on the early validation path, and the dragged
card id is still set. The claim that every drag-session field is reset
after `handleDropOnColumn` returns is therefore false. -/
theorem claim_C7_counterexample :
    (handleDropOnColumn strayDragCtx (some "t") 0 1).draggedCardId ≠ none := by
  decide

/-- C7 (amended): `handleDragEnd` always resets the four drag-session id
fields and never touches `dropPosition`; `handleDropOnColumn` either resets
those four fields (move performed, or no-op same-column drop) or returns the
context completely unchanged (early validation failure), and it never
resets `dropPosition` either. -/
theorem claim_C7_amended (ctx : KanbanContext) (targetColumnId? : Option String)
    (timestamp seqId : Nat) :
    ((handleDragEnd ctx).draggedCardId = none ∧
      (handleDragEnd ctx).sourceColumnId = none ∧
      (handleDragEnd ctx).dropTargetColumnId = none ∧
      (handleDragEnd ctx).dropTargetCardId = none ∧
      (handleDragEnd ctx).dropPosition = ctx.dropPosition) ∧
    (handleDropOnColumn ctx targetColumnId? timestamp seqId).dropPosition = ctx.dropPosition ∧
    (((handleDropOnColumn ctx targetColumnId? timestamp seqId).draggedCardId = none ∧
      (handleDropOnColumn ctx targetColumnId? timestamp seqId).sourceColumnId = none ∧
      (handleDropOnColumn ctx targetColumnId? timestamp seqId).dropTargetColumnId = none ∧
      (handleDropOnColumn ctx targetColumnId? timestamp seqId).dropTargetCardId = none) ∨
      handleDropOnColumn ctx targetColumnId? timestamp seqId = ctx) := by
  refine ⟨⟨rfl, rfl, rfl, rfl, rfl⟩, ?_, ?_⟩
  · unfold handleDropOnColumn
    repeat' split
    all_goals try rfl
    all_goals dsimp only
    all_goals repeat' split
    all_goals try rfl
    all_goals rw [dropPosition_after_push]
  · unfold handleDropOnColumn
    repeat' split
    all_goals try (right; rfl)
    all_goals dsimp only
    all_goals repeat' split
    all_goals (left; exact ⟨rfl, rfl, rfl, rfl⟩)

/-- C9 (confirmed): every history operation preserves the invariant
`-1 ≤ historyIndex ≤ history.length - 1` together with
`history.length ≤ MAX_HISTORY_SIZE`. -/
theorem claim_C9_invariant (ctx : KanbanContext) (h : HistoryInv ctx) :
    (∀ cmd, HistoryInv (pushCommand ctx cmd)) ∧
    HistoryInv (performUndo ctx) ∧
    HistoryInv (performRedo ctx) ∧
    (∀ cmd, HistoryInv (jumpToRevision ctx cmd)) ∧
    HistoryInv (resetToInitial ctx) := by
  obtain ⟨h1, h2, h3⟩ := h
  have hinv : ∀ (c : List KanbanColumn) (i : Int), -1 ≤ i →
      i ≤ (ctx.history.length : Int) - 1 →
      HistoryInv { ctx with columns := c, historyIndex := i } :=
    fun c i hi1 hi2 => ⟨hi1, hi2, h3⟩
  refine ⟨?_, ?_, ?_, ?_, ?_⟩
  · intro cmd
    refine ⟨?_, ?_, pushCommand_history_length_le ctx cmd⟩
    all_goals rw [pushCommand_historyIndex]
    all_goals omega
  · unfold performUndo
    split
    · split
      · exact hinv _ _ (by omega) (by omega)
      · exact ⟨h1, h2, h3⟩
    · exact ⟨h1, h2, h3⟩
  · unfold performRedo
    split
    · rename_i hlt
      split
      · exact hinv _ _ (by omega) (by omega)
      · exact hinv ctx.columns _ (by omega) (by omega)
    · exact ⟨h1, h2, h3⟩
  · intro cmd
    unfold jumpToRevision
    cases hfind : findCmdIdx ctx.history cmd.seqId with
    | none => exact ⟨h1, h2, h3⟩
    | some ti =>
      have hlt := findCmdIdx_lt_length ctx.history cmd.seqId ti hfind
      dsimp only
      split
      · exact hinv _ _ (by omega) (by omega)
      · split
        · exact hinv _ _ (by omega) (by omega)
        · exact hinv ctx.columns _ (by omega) (by omega)
  · unfold resetToInitial
    refine hinv _ _ ?_ ?_ <;> split <;> omega

/-- Witness for C9: the invariant holds of `baseCtx` and is preserved by
each of the five operations on it. -/
theorem claim_C9_witness :
    HistoryInv baseCtx ∧
    HistoryInv (pushCommand baseCtx sampleMove) ∧
    HistoryInv (performUndo baseCtx) ∧
    HistoryInv (performRedo baseCtx) ∧
    HistoryInv (jumpToRevision baseCtx sampleMove) ∧
    HistoryInv (resetToInitial baseCtx) :=
  ⟨by decide, (claim_C9_invariant baseCtx (by decide)).1 sampleMove,
    (claim_C9_invariant baseCtx (by decide)).2.1,
    (claim_C9_invariant baseCtx (by decide)).2.2.1,
    (claim_C9_invariant baseCtx (by decide)).2.2.2.1 sampleMove,
    (claim_C9_invariant baseCtx (by decide)).2.2.2.2⟩

/-- C6 (confirmed): `jumpToRevision` to the command whose `seqId` sits at
`targetIndex` leaves `historyIndex = targetIndex` and the log untouched;
jumping forward folds `executeCommand` over exactly the commands at indices
`historyIndex + 1 .. targetIndex` in ascending order, jumping backward
folds `reverseCommand` over exactly the commands at indices
`historyIndex .. targetIndex + 1` in descending order, and jumping to the
current index leaves the document unchanged. -/
theorem claim_C6_jump (ctx : KanbanContext) (cmd : Command) (targetIndex : Nat)
    (hfind : findCmdIdx ctx.history cmd.seqId = some targetIndex)
    (hlo : -1 ≤ ctx.historyIndex)
    (hhi : ctx.historyIndex ≤ (ctx.history.length : Int) - 1) :
    (jumpToRevision ctx cmd).historyIndex = (targetIndex : Int) ∧
    (jumpToRevision ctx cmd).history = ctx.history ∧
    (ctx.historyIndex < (targetIndex : Int) →
      (jumpToRevision ctx cmd).columns =
        ((ctx.history.take (targetIndex + 1)).drop (ctx.historyIndex + 1).toNat).foldl
          executeCommand ctx.columns) ∧
    ((targetIndex : Int) < ctx.historyIndex →
      (jumpToRevision ctx cmd).columns =
        (((ctx.history.take (ctx.historyIndex.toNat + 1)).drop (targetIndex + 1)).reverse).foldl
          reverseCommand ctx.columns) ∧
    ((targetIndex : Int) = ctx.historyIndex → (jumpToRevision ctx cmd).columns = ctx.columns) := by
  have hlen := findCmdIdx_lt_length ctx.history cmd.seqId targetIndex hfind
  unfold jumpToRevision
  rw [hfind]
  dsimp only
  by_cases hgt : (targetIndex : Int) > ctx.historyIndex
  · rw [if_pos hgt]
    exact ⟨rfl, rfl,
      fun _ => execForward_eq_foldl ctx.history ctx.columns (ctx.historyIndex + 1).toNat
        targetIndex hlen,
      fun hcon => absurd hcon (by omega), fun hcon => absurd hcon (by omega)⟩
  · rw [if_neg hgt]
    by_cases hlt2 : (targetIndex : Int) < ctx.historyIndex
    · rw [if_pos hlt2]
      refine ⟨rfl, rfl, fun hcon => absurd hcon (by omega), fun _ => ?_, ?_⟩
      · have hb := execBackward_eq_foldl ctx.history ctx.columns ctx.historyIndex.toNat
          targetIndex (by omega) (by omega)
        exact hb
      · intro hcon
        exact absurd hcon (by omega)
    · rw [if_neg hlt2]
      exact ⟨rfl, rfl, fun hcon => absurd hcon (by omega),
        fun hcon => absurd hcon (by omega), fun _ => rfl⟩

/-- Witness for C6: in `twoCmdCtx` (index `-1`, two commands) jumping to
the command with sequence id 2 executes both commands in order and lands
on index 1. -/
theorem claim_C6_witness :
    findCmdIdx twoCmdCtx.history cmdE.seqId = some 1 ∧
    (jumpToRevision twoCmdCtx cmdE).historyIndex = (1 : Int) ∧
    (jumpToRevision twoCmdCtx cmdE).columns =
      ((twoCmdCtx.history.take 2).drop (twoCmdCtx.historyIndex + 1).toNat).foldl
        executeCommand twoCmdCtx.columns :=
  ⟨by decide, (claim_C6_jump twoCmdCtx cmdE 1 (by decide) (by decide) (by decide)).1,
    (claim_C6_jump twoCmdCtx cmdE 1 (by decide) (by decide) (by decide)).2.2.1 (by decide)⟩

/-- C10 (confirmed): on their failure paths `performEdit` and `createCard`
are atomic. With a blank sanitized title, no card being edited, or the
edited card gone, `performEdit` only clears `editingCardId`; with a blank
sanitized title or no target column `createCard` changes nothing at all;
and when the target column no longer exists it only resets the new-card
modal fields. In particular columns and history are untouched. -/
theorem claim_C10_atomic_failure (ctx : KanbanContext) (timestamp seqId : Nat)
    (newId : String) (now seqId2 : Nat) :
    ((sanitizeTitle ctx.editTitle = "" ∨ ctx.editingCardId = none ∨
        (∃ cid, ctx.editingCardId = some cid ∧ findCardLocation ctx.columns cid = none)) →
      performEdit ctx timestamp seqId = { ctx with editingCardId := none } ∧
      (performEdit ctx timestamp seqId).columns = ctx.columns ∧
      (performEdit ctx timestamp seqId).history = ctx.history) ∧
    ((sanitizeTitle ctx.newCardTitle = "" ∨ ctx.newCardColumnId = none) →
      createCard ctx newId now seqId2 = ctx) ∧
    (∀ cid, ctx.newCardColumnId = some cid → sanitizeTitle ctx.newCardTitle ≠ "" →
      findColumnIdx ctx.columns cid = none →
      createCard ctx newId now seqId2 = resetNewCardModal ctx ∧
      (createCard ctx newId now seqId2).columns = ctx.columns ∧
      (createCard ctx newId now seqId2).history = ctx.history) := by
  refine ⟨?_, ?_, ?_⟩
  · intro h
    have hmain : performEdit ctx timestamp seqId = { ctx with editingCardId := none } := by
      unfold performEdit
      dsimp only
      split
      · rfl
      · rename_i cid hsome
        split
        · rfl
        · rename_i hs
          split
          · rfl
          · rename_i p hloc
            rcases h with h | h | ⟨cid', hcid', hloc'⟩
            · exact absurd h hs
            · rw [h] at hsome
              exact Option.noConfusion hsome
            · rw [hsome] at hcid'
              injection hcid' with he
              subst he
              rw [hloc'] at hloc
              exact Option.noConfusion hloc
    exact ⟨hmain, by rw [hmain], by rw [hmain]⟩
  · intro h
    unfold createCard
    dsimp only
    split
    · rfl
    · rename_i hs
      split
      · rfl
      · rename_i columnId hsome
        rcases h with h | h
        · exact absurd h hs
        · rw [h] at hsome
          exact Option.noConfusion hsome
  · intro cid hcid hs hfc
    have hmain : createCard ctx newId now seqId2 = resetNewCardModal ctx := by
      unfold createCard
      dsimp only
      split
      · rename_i h0
        exact absurd h0 hs
      · rename_i hs0
        split
        · rename_i hnone
          rw [hcid] at hnone
          exact Option.noConfusion hnone
        · rename_i columnId hsome
          rw [hcid] at hsome
          injection hsome with he
          subst he
          split
          · rfl
          · rename_i ci hfc2
            rw [hfc] at hfc2
            exact Option.noConfusion hfc2
    exact ⟨hmain, by rw [hmain]; rfl, by rw [hmain]; rfl⟩

/-- Witness for C10 at concrete inputs: a blank edit title on
`blankEditCtx`, a blank new-card title on `baseCtx`, and the vanished
column of `staleModalCtx`. -/
theorem claim_C10_witness :
    performEdit blankEditCtx 0 9 = { blankEditCtx with editingCardId := none } ∧
    createCard baseCtx "card-x" 0 9 = baseCtx ∧
    createCard staleModalCtx "card-x" 0 9 = resetNewCardModal staleModalCtx :=
  ⟨((claim_C10_atomic_failure blankEditCtx 0 9 "card-x" 0 9).1 (Or.inl (by decide))).1,
    (claim_C10_atomic_failure baseCtx 0 9 "card-x" 0 9).2.1 (Or.inl (by decide)),
    ((claim_C10_atomic_failure staleModalCtx 0 9 "card-x" 0 9).2.2 "nope" (by decide) (by decide)
      (by decide)).1⟩

end WPDemo
